import Mathlib

/-!
The gRPC demo server with Prometheus metrics.

A shallow embedding of `examples/grpc-server-with-prometheus/server/server.go`.

The Go program keeps its state in package-level variables and in the process
output.  Here that state is an explicit record, `World`, threaded through every
operation.  A Go call either returns or panics; `Result` records which.

Libraries the program only calls (the Prometheus counter vector, the zap
logger, the go-grpc-middleware chain builder) are embedded by their behaviour
towards the program; each such definition says so.
-/

namespace GrpcDemo

/-! ## Results of Go calls -/

/-- Outcome of a Go call: it returns a value, or it panics. -/
inductive Result (α : Type) where
  | returned : α → Result α
  | panicked : Result α
  deriving DecidableEq, Repr

/-- A gRPC status carried by a non-nil Go `error`: a code and a message. -/
structure Status where
  code : Nat
  message : String
  deriving DecidableEq, Repr

/-- Go `error` value: `none` is the nil error. -/
abbrev GoError := Option Status

/-! ## The counter metric

`prometheus.CounterVec` with the single label `name`: one child counter per
label value, created on first use by `WithLabelValues`, never deleted by this
program.  Label values are Lean strings (Unicode text, which is what a proto3
string field carries); the count is a natural number. -/

/-- Children of the counter vector, in creation order: label value and count. -/
abbrev CounterVec := List (String × Nat)

/-- Current count of the child for `label`, `none` when no child exists. -/
def CounterVec.get? : CounterVec → String → Option Nat
  | [], _ => none
  | (k, v) :: rest, label => if k = label then some v else CounterVec.get? rest label

/-- Method `CounterVec.WithLabelValues(label)`: returns the child for `label`,
creating it with count 0 when it does not exist yet.  The returned child is
identified by its label. -/
def CounterVec.WithLabelValues (cv : CounterVec) (label : String) : CounterVec :=
  match cv.get? label with
  | some _ => cv
  | none => cv ++ [(label, 0)]

/-- Method `Counter.Inc()` on the child for `label`: adds one to its count. -/
def CounterVec.Inc : CounterVec → String → CounterVec
  | [], _ => []
  | (k, v) :: rest, label =>
    if k = label then (k, v + 1) :: rest else (k, v) :: CounterVec.Inc rest label

/-- Value of `customizedCounterMetric` as declared (lines 40-44): no child. -/
def customizedCounterMetric : CounterVec := []

/-! ## Log lines and the process state -/

/-- One structured log entry written by `lg.Info(msg, zap.String("name", name),
zap.Int("index", index))`. -/
structure LogLine where
  msg : String
  name : String
  index : Int
  deriving DecidableEq, Repr

/-- State of the process: the lines the loggers have written, the custom
counter metric, the number of Info calls made on loggers so far (`infoCalls`),
and whatever else a handler may touch (`ext`). -/
structure World (ε : Type) where
  log : List LogLine
  counter : CounterVec
  infoCalls : Nat
  ext : ε
  deriving DecidableEq, Repr

/-- Append lines to the log of a world. -/
def World.addLog {ε : Type} (w : World ε) (ls : List LogLine) : World ε :=
  ⟨w.log ++ ls, w.counter, w.infoCalls, w.ext⟩

/-- A zap logger behind a non-nil pointer.  An Info call on it does not always
write: the entry is dropped when the Info level is disabled for the logger, and
a sampling logger, such as the one `zap.NewProduction` builds (line 76), drops
entries once the same message has been logged often enough within one second.
`writes k e` tells whether the entry `e` is written when it is offered by the
`k`-th Info call of the process; time and the sampler counts are not embedded,
so any pattern of written and dropped entries is a logger. -/
structure Logger where
  writes : Nat → LogLine → Bool

/-- A logger that writes every Info entry it is offered: Info level enabled and
no entry dropped by sampling. -/
def Logger.writesAll (lg : Logger) : Prop :=
  ∀ (k : Nat) (e : LogLine), lg.writes k e = true

/-- Logger that writes every entry (Info enabled, no sampling). -/
def Logger.always : Logger := ⟨fun _ _ => true⟩

/-- Logger with the Info level disabled (a Warn-level logger): no Info entry is
written. -/
def Logger.silent : Logger := ⟨fun _ _ => false⟩

/-- Logger whose sampler lets the first `n` Info calls of the process through
and drops the later ones. -/
def Logger.firstCalls (n : Nat) : Logger := ⟨fun k _ => decide (k < n)⟩

/-- One Info call on the logger `lg`, a non-nil pointer, with the entry `e`: the
entry is appended to the log when the logger writes it, and the call is counted
either way. -/
def World.offer {ε : Type} (w : World ε) (lg : Logger) (e : LogLine) : World ε :=
  ⟨if lg.writes w.infoCalls e then w.log ++ [e] else w.log, w.counter, w.infoCalls + 1, w.ext⟩

/-- A sequence of Info calls, each with its logger and entry, in order. -/
def World.offerAll {ε : Type} (w : World ε) (es : List (Logger × LogLine)) : World ε :=
  es.foldl (fun acc p => acc.offer p.1 p.2) w

/-- Method `(*zap.Logger).Info`.  The receiver is a pointer: on nil the method
dereferences it and the call panics; otherwise the entry is offered to the
logger, which writes or drops it, and the call returns. -/
def Logger.Info {ε : Type} (lg : Option Logger) (msg name : String) (index : Int)
    (w : World ε) : World ε × Result Unit :=
  match lg with
  | none => (w, Result.panicked)
  | some l => (w.offer l ⟨msg, name, index⟩, Result.returned ())

/-! ## The service handler -/

/-- Message `pb.HelloRequest`. -/
structure HelloRequest where
  Name : String
  deriving DecidableEq, Repr

/-- Message `pb.HelloResponse`. -/
structure HelloResponse where
  Message : String
  deriving DecidableEq, Repr

/-- Method `DemoServiceServer.SayHello` (lines 28-31): increments the child of
`customizedCounterMetric` labelled with the request name, then returns the
greeting and a nil error. -/
def SayHello {Ctx ε : Type} (_ctx : Ctx) (request : HelloRequest) (w : World ε) :
    World ε × Result (HelloResponse × GoError) :=
  let counter := (w.counter.WithLabelValues request.Name).Inc request.Name
  (⟨w.log, counter, w.infoCalls, w.ext⟩, Result.returned (⟨"Hello " ++ request.Name⟩, none))

/-- Function `init` (lines 47-51) applied to the package-level declarations:
nothing logged yet, and the counter vector holds the child `"Test"` that
`WithLabelValues("Test")` creates. -/
def init : World Unit :=
  ⟨[], customizedCounterMetric.WithLabelValues "Test", 0, ()⟩

/-- State after a sequence of `SayHello` calls, given by the request names in
the order the increments take effect, starting from `w`. -/
def serve {ε : Type} (w : World ε) (names : List String) : World ε :=
  names.foldl (fun acc n => (SayHello () ⟨n⟩ acc).1) w

/-- Responses of a sequence of `SayHello` calls started from `w`. -/
def responses {ε : Type} : World ε → List String → List (Result (HelloResponse × GoError))
  | _, [] => []
  | w, n :: rest => (SayHello () ⟨n⟩ w).2 :: responses (SayHello () ⟨n⟩ w).1 rest

/-! ## Handlers and interceptors -/

/-- Type `grpc.UnaryHandler`: `func(ctx, req) (resp, err)`. -/
abbrev UnaryHandler (Ctx Req Resp ε : Type) :=
  Ctx → Req → World ε → World ε × Result (Resp × GoError)

/-- Type `grpc.UnaryServerInterceptor`: `func(ctx, req, info, handler) (resp, err)`. -/
abbrev UnaryServerInterceptor (Ctx Req Info Resp ε : Type) :=
  Ctx → Req → Info → UnaryHandler Ctx Req Resp ε → World ε → World ε × Result (Resp × GoError)

/-- Type `grpc.StreamHandler`: `func(srv, stream) error`. -/
abbrev StreamHandler (Srv SS ε : Type) :=
  Srv → SS → World ε → World ε × Result GoError

/-- Type `grpc.StreamServerInterceptor`: `func(srv, ss, info, handler) error`. -/
abbrev StreamServerInterceptor (Srv SS SInfo ε : Type) :=
  Srv → SS → SInfo → StreamHandler Srv SS ε → World ε → World ε × Result GoError

/-- Function `newLogUnaryInterceptor` (lines 53-62).  The returned interceptor
logs the entry line (line 55), calls the handler (line 56), and, when the
logger is not nil, defers the exit line (lines 57-59), which is written as the
interceptor returns the handler's pair (line 60).  A panic of the entry log or
of the handler leaves the function before the `defer` statement is reached.
The guard of line 57 tests the pointer only; no level of the logger is
consulted there, whatever the comment on that line says. -/
def newLogUnaryInterceptor {Ctx Req Info Resp ε : Type} (lg : Option Logger) (index : Int)
    (name : String) : UnaryServerInterceptor Ctx Req Info Resp ε :=
  fun ctx req _info handler w =>
    match Logger.Info lg "executing interceptor logic" name index w with
    | (w1, Result.panicked) => (w1, Result.panicked)
    | (w1, Result.returned _) =>
      match handler ctx req w1 with
      | (w2, Result.panicked) => (w2, Result.panicked)
      | (w2, Result.returned (resp, err)) =>
        if lg.isSome then
          match Logger.Info lg "finished interceptor logic" name index w2 with
          | (w3, Result.panicked) => (w3, Result.panicked)
          | (w3, Result.returned _) => (w3, Result.returned (resp, err))
        else (w2, Result.returned (resp, err))

/-- Function `grpc_middleware.ChainUnaryServer`: one interceptor out of a list.
The first interceptor is the outermost; each receives as its handler the rest
of the chain closed over the same `info`, the last receives the real handler;
the empty chain calls the handler directly. -/
def ChainUnaryServer {Ctx Req Info Resp ε : Type}
    (interceptors : List (UnaryServerInterceptor Ctx Req Info Resp ε)) :
    UnaryServerInterceptor Ctx Req Info Resp ε :=
  fun ctx req info handler =>
    (interceptors.foldr (fun i next => fun c r => i c r info next) handler) ctx req

/-- Configuration of a logging interceptor: its logger, index and name. -/
structure LogSpec where
  lg : Logger
  index : Int
  name : String

/-- Interceptors built by `newLogUnaryInterceptor` from a list of
configurations, each with a non-nil logger. -/
def logInterceptors {Ctx Req Info Resp ε : Type} (specs : List LogSpec) :
    List (UnaryServerInterceptor Ctx Req Info Resp ε) :=
  specs.map (fun s => newLogUnaryInterceptor (some s.lg) s.index s.name)

/-- Entry line of a logging interceptor. -/
def executingLine (s : LogSpec) : LogLine :=
  ⟨"executing interceptor logic", s.name, s.index⟩

/-- Exit line of a logging interceptor. -/
def finishedLine (s : LogSpec) : LogLine :=
  ⟨"finished interceptor logic", s.name, s.index⟩

/-- Entry Info calls of a chain of logging interceptors, in chain order. -/
def executingEntries (specs : List LogSpec) : List (Logger × LogLine) :=
  specs.map (fun s => (s.lg, executingLine s))

/-- Exit Info calls of a chain of logging interceptors, innermost first. -/
def finishedEntries (specs : List LogSpec) : List (Logger × LogLine) :=
  (specs.map (fun s => (s.lg, finishedLine s))).reverse

/-- Handler instrumented with a call tally: it runs `h` on the state without
the tally and adds one to the tally each time it is invoked. -/
def tallied {Ctx Req Resp ε : Type} (h : UnaryHandler Ctx Req Resp ε) :
    UnaryHandler Ctx Req Resp (ε × Nat) :=
  fun ctx req w =>
    match h ctx req ⟨w.log, w.counter, w.infoCalls, w.ext.1⟩ with
    | (w1, r) => (⟨w1.log, w1.counter, w1.infoCalls, (w1.ext, w.ext.2 + 1)⟩, r)

/-- Info calls made once a call has come back: they are made when the call
returned and skipped when it panicked. -/
def thenOffer {ε α : Type} (es : List (Logger × LogLine)) :
    World ε × Result α → World ε × Result α
  | (w, Result.returned r) => (w.offerAll es, Result.returned r)
  | (w, Result.panicked) => (w, Result.panicked)

/-! ## The server built by `main` -/

/-- Slice `chainUnaryInterceptors` of `main` (lines 83-87), for the logger `lg`
that `zap.NewProduction` returned and the unary interceptor of `grpcMetrics`. -/
def chainUnaryInterceptors {Ctx Req Info Resp ε : Type} (lg : Logger)
    (metricsUnary : UnaryServerInterceptor Ctx Req Info Resp ε) :
    List (UnaryServerInterceptor Ctx Req Info Resp ε) :=
  [ newLogUnaryInterceptor (some lg) 0
      "first interceptor capturing the server e2e latency in logs",
    newLogUnaryInterceptor (some lg) 1
      "second interceptor capturing the server e2e latency in prometheus metrics",
    metricsUnary ]

/-- Interceptors installed for streamed calls (line 89): the stream interceptor
of `grpcMetrics`, alone. -/
def streamInterceptors {Srv SS SInfo ε : Type}
    (metricsStream : StreamServerInterceptor Srv SS SInfo ε) :
    List (StreamServerInterceptor Srv SS SInfo ε) :=
  [metricsStream]

/-- Server option `grpc.UnaryInterceptor(grpc_middleware.ChainUnaryServer(...))`
(line 90): the interceptor every unary call goes through. -/
def serverUnaryInterceptor {Ctx Req Info Resp ε : Type} (lg : Logger)
    (metricsUnary : UnaryServerInterceptor Ctx Req Info Resp ε) :
    UnaryServerInterceptor Ctx Req Info Resp ε :=
  ChainUnaryServer (chainUnaryInterceptors lg metricsUnary)

/-- Server option `grpc.StreamInterceptor(grpcMetrics.StreamServerInterceptor())`
(line 89): the interceptor every streamed call goes through. -/
def serverStreamInterceptor {Srv SS SInfo ε : Type}
    (metricsStream : StreamServerInterceptor Srv SS SInfo ε) :
    StreamServerInterceptor Srv SS SInfo ε :=
  metricsStream

/-- A unary interceptor that only forwards the call, used as a stand-in for the
metrics interceptor in concrete runs. -/
def forwardUnary {Ctx Req Info Resp ε : Type} : UnaryServerInterceptor Ctx Req Info Resp ε :=
  fun ctx req _info handler w => handler ctx req w

/-- A stream interceptor that only forwards the call. -/
def forwardStream {Srv SS SInfo ε : Type} : StreamServerInterceptor Srv SS SInfo ε :=
  fun srv ss _info handler w => handler srv ss w

/-- Terminal handler that fails with the given status after writing one log
line of its own; used in concrete runs. -/
def failingHandler (st : Status) : UnaryHandler Unit HelloRequest HelloResponse Unit :=
  fun _ctx req w => (w.addLog [⟨"handler", req.Name, 7⟩], Result.returned (⟨""⟩, some st))

/-- Three logging configurations `A`, `B`, `C` sharing the logger `lg`. -/
def abcWith (lg : Logger) : List LogSpec :=
  [⟨lg, 0, "A"⟩, ⟨lg, 1, "B"⟩, ⟨lg, 2, "C"⟩]

/-- Configurations `A`, `B`, `C` with a logger that writes every entry. -/
def abcSpecs : List LogSpec := abcWith Logger.always

/-- State in which `failingHandler` returns when it is called with name `"x"`
behind the chain `abcSpecs` started in the state `init`. -/
def abcHandled : World Unit :=
  ⟨[⟨"executing interceptor logic", "A", 0⟩, ⟨"executing interceptor logic", "B", 1⟩,
    ⟨"executing interceptor logic", "C", 2⟩, ⟨"handler", "x", 7⟩], [("Test", 0)], 3, ()⟩

/-- Stream handler that returns a nil error and touches nothing. -/
def idleStreamHandler : StreamHandler Unit Unit Unit :=
  fun _srv _ss w => (w, Result.returned none)

/-! ## Lemmas on the counter vector -/

theorem get?_append_single (cv : CounterVec) (k l : String) (v : Nat) :
    CounterVec.get? (cv ++ [(k, v)]) l
      = match CounterVec.get? cv l with
        | some x => some x
        | none => if k = l then some v else none := by
  induction cv with
  | nil => simp [CounterVec.get?]
  | cons p rest ih =>
    obtain ⟨a, b⟩ := p
    by_cases hk : a = l
    · simp [CounterVec.get?, hk]
    · simp [CounterVec.get?, hk, ih]

theorem get?_Inc (cv : CounterVec) (n l : String) :
    CounterVec.get? (CounterVec.Inc cv n) l
      = if l = n then (CounterVec.get? cv n).map (fun v => v + 1) else CounterVec.get? cv l := by
  induction cv with
  | nil => simp [CounterVec.get?, CounterVec.Inc]
  | cons p rest ih =>
    obtain ⟨a, b⟩ := p
    by_cases ha : a = n
    · subst ha
      by_cases hl : l = a
      · subst hl; simp [CounterVec.get?, CounterVec.Inc]
      · have hl2 : ¬ a = l := fun h => hl h.symm
        simp [CounterVec.get?, CounterVec.Inc, hl, hl2]
    · by_cases hl : l = n
      · subst hl
        simp [CounterVec.get?, CounterVec.Inc, ha, ih]
      · by_cases hal : a = l
        · simp [CounterVec.get?, CounterVec.Inc, ha, hal, hl]
        · simp [CounterVec.get?, CounterVec.Inc, ha, hal, hl, ih]

theorem get?_WithLabelValues (cv : CounterVec) (n l : String) :
    CounterVec.get? (CounterVec.WithLabelValues cv n) l
      = if l = n then some ((CounterVec.get? cv n).getD 0) else CounterVec.get? cv l := by
  unfold CounterVec.WithLabelValues
  by_cases hl : l = n
  · subst hl
    cases h : CounterVec.get? cv l with
    | none => simp [get?_append_single, h]
    | some x => simp [h]
  · have hl2 : ¬ n = l := fun h => hl h.symm
    cases h : CounterVec.get? cv n with
    | none =>
      simp only [get?_append_single, hl, hl2, if_false]
      cases CounterVec.get? cv l <;> rfl
    | some x => simp [hl]

/-- Effect of one `SayHello` call on the count of every label. -/
theorem get?_SayHello {Ctx ε : Type} (ctx : Ctx) (w : World ε) (n l : String) :
    (SayHello ctx ⟨n⟩ w).1.counter.get? l
      = if l = n then some ((w.counter.get? n).getD 0 + 1) else w.counter.get? l := by
  simp only [SayHello, get?_Inc, get?_WithLabelValues]
  by_cases hl : l = n <;> simp [hl]

/-- Effect of a sequence of `SayHello` calls on the count of every label. -/
theorem get?_serve {ε : Type} (names : List String) (w : World ε) (l : String) :
    (serve w names).counter.get? l
      = if l ∈ names then some ((w.counter.get? l).getD 0 + names.count l)
        else w.counter.get? l := by
  induction names generalizing w with
  | nil => simp [serve]
  | cons n rest ih =>
    have hstep : serve w (n :: rest) = serve (SayHello () ⟨n⟩ w).1 rest := rfl
    rw [hstep, ih, get?_SayHello]
    by_cases hn : l = n
    · subst hn
      by_cases hr : l ∈ rest
      · simp [hr]; omega
      · simp [hr, List.count_eq_zero_of_not_mem hr]
    · have hn2 : ¬ n = l := fun h => hn h.symm
      by_cases hr : l ∈ rest
      · simp [hr, hn, List.count_cons, hn2]
      · simp [hr, hn, hn2]

/-- The counts reached do not depend on the order in which the calls took
effect. -/
theorem get?_serve_perm {ε : Type} (w : World ε) (a b : List String) (hp : a.Perm b)
    (l : String) : (serve w a).counter.get? l = (serve w b).counter.get? l := by
  rw [get?_serve, get?_serve, hp.count_eq l]
  by_cases hm : l ∈ a
  · simp [hm, hp.mem_iff.mp hm]
  · have hb : l ∉ b := fun h => hm (hp.mem_iff.mpr h)
    simp [hm, hb]

theorem get?_init (l : String) :
    init.counter.get? l = if l = "Test" then some 0 else none := by
  simp only [init, get?_WithLabelValues, customizedCounterMetric, CounterVec.get?]
  by_cases hl : l = "Test"
  · simp [hl]
  · have hl2 : ¬ "Test" = l := fun h => hl h.symm
    simp [hl, hl2]

theorem responses_eq {ε : Type} (names : List String) (w : World ε) :
    responses w names
      = names.map (fun n => Result.returned ((⟨"Hello " ++ n⟩ : HelloResponse), (none : GoError))) := by
  induction names generalizing w with
  | nil => rfl
  | cons n rest ih => simp [responses, ih, SayHello]

/-! ## The service handler: results -/

/-- C1: for every request name (the empty string included) and every state,
`SayHello` returns, with a nil error and the message `"Hello " ++ name`. -/
theorem SayHello_returns_greeting {Ctx ε : Type} (ctx : Ctx) (n : String) (w : World ε) :
    (SayHello ctx ⟨n⟩ w).2 = Result.returned (⟨"Hello " ++ n⟩, none)
    ∧ (SayHello ctx ⟨""⟩ w).2 = Result.returned (⟨"Hello "⟩, none) := by
  constructor <;> rfl

/-- C2: one `SayHello` call with name `n` raises the count of the label `n`
itself by exactly one, counting from 0 when the label had no child yet. -/
theorem SayHello_increments_label {Ctx ε : Type} (ctx : Ctx) (n : String) (w : World ε) :
    (SayHello ctx ⟨n⟩ w).1.counter.get? n = some ((w.counter.get? n).getD 0 + 1) := by
  rw [get?_SayHello]; simp

/-- C3: after any sequence of `SayHello` calls on the state left by `init`,
every label holds the number of calls made with it (a label other than `"Test"`
that was never used has no child); the responses are the greetings in call
order; three calls with `"Test"` leave the count 3 and answer `"Hello Test"`. -/
theorem serve_counts_calls (names : List String) (n : String) :
    ((serve init names).counter.get? n).getD 0 = names.count n
    ∧ (serve init names).counter.get? n
        = (if n ∈ names ∨ n = "Test" then some (names.count n) else none)
    ∧ responses init names
        = names.map (fun m => Result.returned ((⟨"Hello " ++ m⟩ : HelloResponse), (none : GoError)))
    ∧ (serve init ["Test", "Test", "Test"]).counter.get? "Test" = some 3
    ∧ responses init ["Test", "Test", "Test"]
        = [Result.returned (⟨"Hello Test"⟩, none), Result.returned (⟨"Hello Test"⟩, none),
           Result.returned (⟨"Hello Test"⟩, none)] := by
  have key : (serve init names).counter.get? n
      = (if n ∈ names ∨ n = "Test" then some (names.count n) else none) := by
    rw [get?_serve, get?_init]
    by_cases hm : n ∈ names
    · by_cases ht : n = "Test"
      · subst ht; simp [hm]
      · simp [hm, ht]
    · by_cases ht : n = "Test"
      · subst ht; simp [hm, List.count_eq_zero_of_not_mem hm]
      · simp [hm, ht]
  refine ⟨?_, key, responses_eq names init, by decide, by decide⟩
  rw [key]
  by_cases hm : n ∈ names
  · simp [hm]
  · by_cases ht : n = "Test"
    · simp [ht]
    · simp [hm, ht, List.count_eq_zero_of_not_mem hm]

/-! ## Counter invariants -/

/-- C7: counts never decrease and children are never removed: a label that has
a child with count `v` still has one, with a count of at least `v`, after one
`SayHello` call with any name and after any sequence of calls, from any state. -/
theorem counter_monotone {ε : Type} (w : World ε) (n : String) (names : List String)
    (l : String) (v : Nat) (h : w.counter.get? l = some v) :
    (∃ v1, (SayHello () ⟨n⟩ w).1.counter.get? l = some v1 ∧ v ≤ v1)
    ∧ (∃ v2, (serve w names).counter.get? l = some v2 ∧ v ≤ v2) := by
  constructor
  · rw [get?_SayHello]
    by_cases hl : l = n
    · subst hl; simp [h]
    · simp [hl, h]
  · rw [get?_serve]
    by_cases hm : l ∈ names
    · simp [hm, h]
    · simp [hm, h]

theorem counter_monotone_witness :
    init.counter.get? "Test" = some 0
    ∧ ((∃ v1, (SayHello () ⟨"Test"⟩ init).1.counter.get? "Test" = some v1 ∧ 0 ≤ v1)
      ∧ (∃ v2, (serve init ["a", "Test"]).counter.get? "Test" = some v2 ∧ 0 ≤ v2)) :=
  ⟨by decide, counter_monotone init "Test" ["a", "Test"] "Test" 0 (by decide)⟩

/-- C8, as stated, fails: the state left by `init`, before any `SayHello` call,
already holds a child for the label `"Test"`. -/
theorem init_has_unobserved_label :
    init.counter.get? "Test" = some 0
    ∧ (serve init []).counter.get? "Test" = some 0
    ∧ "Test" ∉ ([] : List String)
    ∧ ¬ (∀ (names : List String) (l : String),
          ((serve init names).counter.get? l).isSome = true → l ∈ names) := by
  refine ⟨by decide, by decide, by simp, ?_⟩
  intro hall
  have hmem := hall [] "Test" (by decide)
  simp at hmem

/-- C8, amended: in the state reached from `init` by any sequence of `SayHello`
calls, a label has a child exactly when a call was made with that name or the
label is `"Test"`, the child `init` creates. -/
theorem labels_after_serve (names : List String) (l : String) :
    ((serve init names).counter.get? l).isSome = true ↔ (l ∈ names ∨ l = "Test") := by
  rw [get?_serve, get?_init]
  by_cases hm : l ∈ names
  · simp [hm]
  · by_cases ht : l = "Test"
    · subst ht; simp [hm]
    · simp [hm, ht]


/-! ## Lemmas on interceptors -/

theorem offerAll_cons {ε : Type} (w : World ε) (p : Logger × LogLine)
    (es : List (Logger × LogLine)) :
    w.offerAll (p :: es) = (w.offer p.1 p.2).offerAll es := rfl

theorem offerAll_append {ε : Type} (w : World ε) (a b : List (Logger × LogLine)) :
    w.offerAll (a ++ b) = (w.offerAll a).offerAll b := by
  simp [World.offerAll, List.foldl_append]

/-- Info calls touch the log and the call count only. -/
theorem offerAll_frame {ε : Type} (es : List (Logger × LogLine)) (w : World ε) :
    (w.offerAll es).counter = w.counter ∧ (w.offerAll es).ext = w.ext
    ∧ (w.offerAll es).infoCalls = w.infoCalls + es.length := by
  induction es generalizing w with
  | nil => simp [World.offerAll]
  | cons p es ih =>
    rw [offerAll_cons]
    obtain ⟨hc, he, hi⟩ := ih (w.offer p.1 p.2)
    refine ⟨by rw [hc]; rfl, by rw [he]; rfl, ?_⟩
    rw [hi]
    simp only [World.offer, List.length_cons]
    omega

/-- Loggers that write every entry append all the offered lines, in order. -/
theorem offerAll_writesAll {ε : Type} (es : List (Logger × LogLine)) (w : World ε)
    (hall : ∀ p ∈ es, p.1.writesAll) :
    w.offerAll es = ⟨w.log ++ es.map Prod.snd, w.counter, w.infoCalls + es.length, w.ext⟩ := by
  induction es generalizing w with
  | nil => cases w; simp [World.offerAll]
  | cons p es ih =>
    rw [offerAll_cons, ih _ (fun q hq => hall q (List.mem_cons_of_mem _ hq))]
    have hp : p.1.writes w.infoCalls p.2 = true := hall p (List.mem_cons_self _ _) _ _
    simp only [World.offer, hp, if_true, List.map_cons, List.length_cons, List.append_assoc,
      List.singleton_append]
    congr 1
    omega

/-- The log only grows under Info calls, and the entry of every call made on a
logger that writes every entry is among the lines added. -/
theorem offerAll_log {ε : Type} (es : List (Logger × LogLine)) (w : World ε) :
    ∃ ls, (w.offerAll es).log = w.log ++ ls ∧ ∀ p ∈ es, p.1.writesAll → p.2 ∈ ls := by
  induction es generalizing w with
  | nil => exact ⟨[], by simp [World.offerAll], by simp⟩
  | cons p es ih =>
    obtain ⟨ls, hls, hmem⟩ := ih (w.offer p.1 p.2)
    rw [offerAll_cons, hls]
    by_cases hp : p.1.writes w.infoCalls p.2 = true
    · refine ⟨p.2 :: ls, by simp [World.offer, hp], ?_⟩
      intro q hq hw
      rcases List.mem_cons.mp hq with hqp | hqes
      · subst hqp; exact List.mem_cons_self _ _
      · exact List.mem_cons_of_mem _ (hmem q hqes hw)
    · refine ⟨ls, by simp [World.offer, hp], ?_⟩
      intro q hq hw
      rcases List.mem_cons.mp hq with hqp | hqes
      · subst hqp; exact absurd (hw _ _) hp
      · exact hmem q hqes hw

theorem thenOffer_nil {ε α : Type} (x : World ε × Result α) : thenOffer [] x = x := by
  obtain ⟨w, r | _⟩ := x <;> rfl

theorem thenOffer_thenOffer {ε α : Type} (a b : List (Logger × LogLine))
    (x : World ε × Result α) :
    thenOffer b (thenOffer a x) = thenOffer (a ++ b) x := by
  obtain ⟨w, r | _⟩ := x <;> simp [thenOffer, offerAll_append]

/-- One logging interceptor with a non-nil logger: the entry Info call, the
handler, then the exit Info call if the handler returned. -/
theorem newLog_run {Ctx Req Info Resp ε : Type} (s : LogSpec) (ctx : Ctx) (req : Req)
    (info : Info) (h : UnaryHandler Ctx Req Resp ε) (w : World ε) :
    newLogUnaryInterceptor (some s.lg) s.index s.name ctx req info h w
      = thenOffer [(s.lg, finishedLine s)] (h ctx req (w.offer s.lg (executingLine s))) := by
  simp only [newLogUnaryInterceptor, Logger.Info, executingLine, finishedLine]
  generalize h ctx req _ = out
  obtain ⟨w2, ⟨resp, err⟩ | _⟩ := out <;> simp [thenOffer, World.offerAll]

theorem ChainUnaryServer_cons {Ctx Req Info Resp ε : Type}
    (i : UnaryServerInterceptor Ctx Req Info Resp ε)
    (rest : List (UnaryServerInterceptor Ctx Req Info Resp ε))
    (ctx : Ctx) (req : Req) (info : Info) (h : UnaryHandler Ctx Req Resp ε) (w : World ε) :
    ChainUnaryServer (i :: rest) ctx req info h w
      = i ctx req info (fun c r => ChainUnaryServer rest c r info h) w := rfl

/-- Logging interceptors in front of any further interceptors: the entry Info
calls in list order, the rest of the chain, the exit Info calls in reverse
order. -/
theorem chain_log_front_run {Ctx Req Info Resp ε : Type} (specs : List LogSpec)
    (rest : List (UnaryServerInterceptor Ctx Req Info Resp ε))
    (ctx : Ctx) (req : Req) (info : Info) (h : UnaryHandler Ctx Req Resp ε) (w : World ε) :
    ChainUnaryServer (logInterceptors specs ++ rest) ctx req info h w
      = thenOffer (finishedEntries specs)
          (ChainUnaryServer rest ctx req info h (w.offerAll (executingEntries specs))) := by
  induction specs generalizing w with
  | nil =>
    simp only [logInterceptors, List.map_nil, List.nil_append, finishedEntries, executingEntries,
      List.reverse_nil, thenOffer_nil]
    rfl
  | cons s specs ih =>
    have hcons : logInterceptors (s :: specs) ++ rest
        = newLogUnaryInterceptor (some s.lg) s.index s.name
            :: (logInterceptors specs ++ rest) := rfl
    rw [hcons, ChainUnaryServer_cons, newLog_run, ih, thenOffer_thenOffer]
    simp [finishedEntries, executingEntries, offerAll_cons]

/-- A chain of logging interceptors around a terminal handler. -/
theorem chain_log_run {Ctx Req Info Resp ε : Type} (specs : List LogSpec)
    (ctx : Ctx) (req : Req) (info : Info) (h : UnaryHandler Ctx Req Resp ε) (w : World ε) :
    ChainUnaryServer (logInterceptors specs) ctx req info h w
      = thenOffer (finishedEntries specs)
          (h ctx req (w.offerAll (executingEntries specs))) := by
  have hrun := chain_log_front_run specs [] ctx req info h w
  rw [List.append_nil] at hrun
  rw [hrun]
  rfl

/-- A logging interceptor with a non-nil logger invokes its handler exactly
once, whether its logger writes or drops the lines: the tally of an
instrumented handler goes up by one. -/
theorem newLog_tally_succ {Ctx Req Info Resp ε : Type} (s : LogSpec) (ctx : Ctx) (req : Req)
    (info : Info) (h : UnaryHandler Ctx Req Resp ε) (w : World (ε × Nat)) :
    (newLogUnaryInterceptor (some s.lg) s.index s.name ctx req info (tallied h) w).1.ext.2
      = w.ext.2 + 1 := by
  rw [newLog_run]
  simp only [tallied, World.offer]
  generalize h ctx req _ = out
  obtain ⟨w2, r | _⟩ := out
  · simp only [thenOffer]
    rw [(offerAll_frame _ _).2.1]
  · rfl

/-! ## The interceptor chain -/

/-- C4, as stated, fails: a non-nil logger need not write the lines.  Behind
the chain `A`, `B`, `C` built with a logger whose Info level is disabled, the
log of the call holds the line of the handler alone; with a logger whose
sampler lets four Info calls through, the exit lines of `B` and `A` are
missing. -/
theorem quiet_logger_drops_lines :
    (ChainUnaryServer (logInterceptors (abcWith Logger.silent))
        () ⟨"x"⟩ () (failingHandler ⟨13, "boom"⟩) init).1.log
      = [⟨"handler", "x", 7⟩]
    ∧ (ChainUnaryServer (logInterceptors (abcWith (Logger.firstCalls 4)))
        () ⟨"x"⟩ () (failingHandler ⟨13, "boom"⟩) init).1.log
      = [⟨"executing interceptor logic", "A", 0⟩, ⟨"executing interceptor logic", "B", 1⟩,
         ⟨"executing interceptor logic", "C", 2⟩, ⟨"handler", "x", 7⟩,
         ⟨"finished interceptor logic", "C", 2⟩]
    ∧ (ChainUnaryServer (logInterceptors (abcWith Logger.silent))
        () ⟨"x"⟩ () (failingHandler ⟨13, "boom"⟩) init).1.log
      ≠ [⟨"executing interceptor logic", "A", 0⟩, ⟨"executing interceptor logic", "B", 1⟩,
         ⟨"executing interceptor logic", "C", 2⟩, ⟨"handler", "x", 7⟩,
         ⟨"finished interceptor logic", "C", 2⟩, ⟨"finished interceptor logic", "B", 1⟩,
         ⟨"finished interceptor logic", "A", 0⟩] := by
  refine ⟨by decide, by decide, by decide⟩

/-- C4, amended: for a chain of logging interceptors whose loggers are non-nil
and write every Info entry they are offered, around any terminal handler, the
handler runs after the entry lines were written in chain order, and when it
returns, with or without an error, the log of the call ends with the exit
lines in reverse chain order; every line carries the name and index of its
interceptor. -/
theorem chain_log_order {Ctx Req Info Resp ε : Type} (specs : List LogSpec)
    (ctx : Ctx) (req : Req) (info : Info) (h : UnaryHandler Ctx Req Resp ε) (w w2 : World ε)
    (r : Resp × GoError)
    (hall : ∀ s ∈ specs, s.lg.writesAll)
    (hret : h ctx req ⟨w.log ++ specs.map (fun s => ⟨"executing interceptor logic", s.name, s.index⟩),
              w.counter, w.infoCalls + specs.length, w.ext⟩ = (w2, Result.returned r)) :
    (ChainUnaryServer (logInterceptors specs) ctx req info h w).1.log
      = w2.log ++ (specs.map (fun s => ⟨"finished interceptor logic", s.name, s.index⟩)).reverse := by
  have hE : ∀ p ∈ executingEntries specs, p.1.writesAll := by
    intro p hp
    obtain ⟨s, hs, rfl⟩ := List.mem_map.mp hp
    exact hall s hs
  have hF : ∀ p ∈ finishedEntries specs, p.1.writesAll := by
    intro p hp
    obtain ⟨s, hs, rfl⟩ := List.mem_map.mp (List.mem_reverse.mp hp)
    exact hall s hs
  have hin : w.offerAll (executingEntries specs)
      = ⟨w.log ++ specs.map (fun s => ⟨"executing interceptor logic", s.name, s.index⟩),
          w.counter, w.infoCalls + specs.length, w.ext⟩ := by
    rw [offerAll_writesAll _ _ hE]
    simp [executingEntries, executingLine, Function.comp_def]
  rw [chain_log_run, hin, hret]
  simp only [thenOffer]
  rw [offerAll_writesAll _ _ hF]
  simp [finishedEntries, finishedLine, Function.comp_def, List.map_reverse]

theorem chain_log_order_witness :
    (∀ s ∈ abcSpecs, s.lg.writesAll)
    ∧ failingHandler ⟨13, "boom"⟩ () ⟨"x"⟩
        ⟨init.log ++ abcSpecs.map (fun s => ⟨"executing interceptor logic", s.name, s.index⟩),
          init.counter, init.infoCalls + abcSpecs.length, init.ext⟩
      = (abcHandled, Result.returned (⟨""⟩, some ⟨13, "boom"⟩))
    ∧ (ChainUnaryServer (logInterceptors abcSpecs)
        () ⟨"x"⟩ () (failingHandler ⟨13, "boom"⟩) init).1.log
      = abcHandled.log
        ++ (abcSpecs.map (fun s => ⟨"finished interceptor logic", s.name, s.index⟩)).reverse
    ∧ (ChainUnaryServer (logInterceptors abcSpecs)
        () ⟨"x"⟩ () (failingHandler ⟨13, "boom"⟩) init).1.log
      = [⟨"executing interceptor logic", "A", 0⟩, ⟨"executing interceptor logic", "B", 1⟩,
         ⟨"executing interceptor logic", "C", 2⟩, ⟨"handler", "x", 7⟩,
         ⟨"finished interceptor logic", "C", 2⟩, ⟨"finished interceptor logic", "B", 1⟩,
         ⟨"finished interceptor logic", "A", 0⟩] :=
  have hall : ∀ s ∈ abcSpecs, s.lg.writesAll := by
    intro s hs
    simp only [abcSpecs, abcWith, List.mem_cons, List.mem_singleton, List.not_mem_nil,
      or_false] at hs
    rcases hs with rfl | rfl | rfl <;> exact fun _ _ => rfl
  ⟨hall, by decide,
   @chain_log_order Unit HelloRequest Unit HelloResponse Unit abcSpecs () ⟨"x"⟩ ()
     (failingHandler ⟨13, "boom"⟩) init abcHandled (⟨""⟩, some ⟨13, "boom"⟩) hall (by decide),
   by decide⟩

/-- C5, as stated, fails: with a logger whose Info level is disabled the error
comes back but no exit line is written, and with a nil logger the chain panics
in the entry log call, the handler is never reached and its error is not
returned. -/
theorem error_path_without_exit_lines :
    ChainUnaryServer (logInterceptors (abcWith Logger.silent))
        () ⟨"x"⟩ () (failingHandler ⟨13, "boom"⟩) init
      = (⟨[⟨"handler", "x", 7⟩], [("Test", 0)], 6, ()⟩,
         Result.returned (⟨""⟩, some ⟨13, "boom"⟩))
    ∧ (⟨"finished interceptor logic", "A", 0⟩ : LogLine)
        ∉ (ChainUnaryServer (logInterceptors (abcWith Logger.silent))
            () ⟨"x"⟩ () (failingHandler ⟨13, "boom"⟩) init).1.log
    ∧ ChainUnaryServer [newLogUnaryInterceptor none 0 "A", newLogUnaryInterceptor none 1 "B"]
        () ⟨"x"⟩ () (failingHandler ⟨13, "boom"⟩) init
      = (init, Result.panicked)
    ∧ (ChainUnaryServer [newLogUnaryInterceptor none 0 "A", newLogUnaryInterceptor none 1 "B"]
        () ⟨"x"⟩ () (failingHandler ⟨13, "boom"⟩) init).2
      ≠ Result.returned (⟨""⟩, some ⟨13, "boom"⟩) := by
  refine ⟨by decide, by decide, by decide, by decide⟩

/-- C5, amended: when the terminal handler fails with an error, a chain of
logging interceptors built with non-nil loggers returns that same error (code
and message) with the same response value; every interceptor of the chain
still makes its exit Info call after the handler has returned, innermost
first, and the exit line of every interceptor whose logger writes every entry
is in the log after the lines the handler left. -/
theorem chain_propagates_error {Ctx Req Info Resp ε : Type} (specs : List LogSpec)
    (ctx : Ctx) (req : Req) (info : Info) (h : UnaryHandler Ctx Req Resp ε) (w w2 : World ε)
    (resp : Resp) (e : Status)
    (hfail : h ctx req (w.offerAll (executingEntries specs))
      = (w2, Result.returned (resp, some e))) :
    (ChainUnaryServer (logInterceptors specs) ctx req info h w).2
        = Result.returned (resp, some e)
    ∧ (ChainUnaryServer (logInterceptors specs) ctx req info h w).1
        = w2.offerAll (finishedEntries specs)
    ∧ (∀ s ∈ specs, s.lg.writesAll → finishedLine s
        ∈ ((ChainUnaryServer (logInterceptors specs) ctx req info h w).1.log).drop
            w2.log.length)
    ∧ ((∀ s ∈ specs, s.lg.writesAll) →
        (ChainUnaryServer (logInterceptors specs) ctx req info h w).1.log
          = w2.log ++ (specs.map finishedLine).reverse) := by
  rw [chain_log_run, hfail]
  refine ⟨rfl, rfl, ?_, ?_⟩
  · intro s hs hw
    obtain ⟨ls, hls, hmem⟩ := offerAll_log (finishedEntries specs) w2
    simp only [thenOffer, hls, List.drop_left]
    exact hmem (s.lg, finishedLine s)
      (List.mem_reverse.mpr (List.mem_map.mpr ⟨s, hs, rfl⟩)) hw
  · intro hall
    have hF : ∀ p ∈ finishedEntries specs, p.1.writesAll := by
      intro p hp
      obtain ⟨s, hs, rfl⟩ := List.mem_map.mp (List.mem_reverse.mp hp)
      exact hall s hs
    simp only [thenOffer]
    rw [offerAll_writesAll _ _ hF]
    simp [finishedEntries, Function.comp_def, List.map_reverse]

theorem chain_propagates_error_witness :
    failingHandler ⟨13, "boom"⟩ () ⟨"x"⟩ (init.offerAll (executingEntries abcSpecs))
      = (abcHandled, Result.returned (⟨""⟩, some ⟨13, "boom"⟩))
    ∧ (∀ s ∈ abcSpecs, s.lg.writesAll)
    ∧ (ChainUnaryServer (logInterceptors abcSpecs)
          () ⟨"x"⟩ () (failingHandler ⟨13, "boom"⟩) init).2
        = Result.returned (⟨""⟩, some ⟨13, "boom"⟩)
    ∧ (ChainUnaryServer (logInterceptors abcSpecs)
          () ⟨"x"⟩ () (failingHandler ⟨13, "boom"⟩) init).1
        = abcHandled.offerAll (finishedEntries abcSpecs)
    ∧ (∀ s ∈ abcSpecs, finishedLine s
        ∈ ((ChainUnaryServer (logInterceptors abcSpecs)
            () ⟨"x"⟩ () (failingHandler ⟨13, "boom"⟩) init).1.log).drop
          abcHandled.log.length)
    ∧ (ChainUnaryServer (logInterceptors abcSpecs)
          () ⟨"x"⟩ () (failingHandler ⟨13, "boom"⟩) init).1.log
        = abcHandled.log ++ (abcSpecs.map finishedLine).reverse :=
  have hall : ∀ s ∈ abcSpecs, s.lg.writesAll := by
    intro s hs
    simp only [abcSpecs, abcWith, List.mem_cons, List.mem_singleton, List.not_mem_nil,
      or_false] at hs
    rcases hs with rfl | rfl | rfl <;> exact fun _ _ => rfl
  have hrun := @chain_propagates_error Unit HelloRequest Unit HelloResponse Unit abcSpecs () ⟨"x"⟩ ()
    (failingHandler ⟨13, "boom"⟩) init abcHandled ⟨""⟩ ⟨13, "boom"⟩ (by decide)
  ⟨by decide, hall, hrun.1, hrun.2.1, fun s hs => hrun.2.2.1 s hs (hall s hs), hrun.2.2.2 hall⟩

/-- C10: a chain of logging interceptors with non-nil loggers hands the
terminal handler the very context and request it received, in a state that
differs from the caller's only by what the entry Info calls did to the log and
the call count, and gives back the handler's outcome, its (response, error)
pair included, with the counter metric and the rest of the state as the
handler left them; this holds whether the loggers write or drop their lines. -/
theorem chain_transparent {Ctx Req Info Resp ε : Type} (specs : List LogSpec)
    (ctx : Ctx) (req : Req) (info : Info) (h : UnaryHandler Ctx Req Resp ε) (w : World ε) :
    (ChainUnaryServer (logInterceptors specs) ctx req info h w).2
        = (h ctx req (w.offerAll (executingEntries specs))).2
    ∧ (ChainUnaryServer (logInterceptors specs) ctx req info h w).1.counter
        = (h ctx req (w.offerAll (executingEntries specs))).1.counter
    ∧ (ChainUnaryServer (logInterceptors specs) ctx req info h w).1.ext
        = (h ctx req (w.offerAll (executingEntries specs))).1.ext
    ∧ (w.offerAll (executingEntries specs)).counter = w.counter
    ∧ (w.offerAll (executingEntries specs)).ext = w.ext
    ∧ ((∀ s ∈ specs, s.lg.writesAll) →
        w.offerAll (executingEntries specs)
          = ⟨w.log ++ specs.map executingLine, w.counter, w.infoCalls + specs.length, w.ext⟩) := by
  rw [chain_log_run]
  refine ⟨?_, ?_, ?_, (offerAll_frame _ w).1, (offerAll_frame _ w).2.1, ?_⟩
  · generalize h ctx req _ = out
    obtain ⟨w2, r | _⟩ := out <;> rfl
  · generalize h ctx req _ = out
    obtain ⟨w2, r | _⟩ := out
    · exact (offerAll_frame _ w2).1
    · rfl
  · generalize h ctx req _ = out
    obtain ⟨w2, r | _⟩ := out
    · exact (offerAll_frame _ w2).2.1
    · rfl
  · intro hall
    have hE : ∀ p ∈ executingEntries specs, p.1.writesAll := by
      intro p hp
      obtain ⟨s, hs, rfl⟩ := List.mem_map.mp hp
      exact hall s hs
    rw [offerAll_writesAll _ _ hE]
    simp [executingEntries, Function.comp_def]

theorem chain_transparent_witness :
    (∀ s ∈ abcSpecs, s.lg.writesAll)
    ∧ (ChainUnaryServer (logInterceptors abcSpecs) () ⟨"x"⟩ () SayHello init).2
        = Result.returned (⟨"Hello x"⟩, none)
    ∧ (ChainUnaryServer (logInterceptors abcSpecs) () ⟨"x"⟩ () SayHello init).1.counter
        = [("Test", 0), ("x", 1)]
    ∧ init.offerAll (executingEntries abcSpecs)
        = ⟨init.log ++ abcSpecs.map executingLine, init.counter,
            init.infoCalls + abcSpecs.length, init.ext⟩ :=
  have hall : ∀ s ∈ abcSpecs, s.lg.writesAll := by
    intro s hs
    simp only [abcSpecs, abcWith, List.mem_cons, List.mem_singleton, List.not_mem_nil,
      or_false] at hs
    rcases hs with rfl | rfl | rfl <;> exact fun _ _ => rfl
  have hrun := @chain_transparent Unit HelloRequest Unit HelloResponse Unit abcSpecs () ⟨"x"⟩ ()
    SayHello init
  ⟨hall, hrun.1.trans (by decide), hrun.2.1.trans (by decide), hrun.2.2.2.2.2 hall⟩

/-- C6, at a nil logger: the interceptor panics in the entry log call and the
handler is not invoked, so an instrumented handler keeps its tally and the
state is left as it was. -/
theorem nil_logger_skips_handler {Ctx Req Info Resp ε : Type} (index : Int) (name : String)
    (ctx : Ctx) (req : Req) (info : Info) (h : UnaryHandler Ctx Req Resp ε)
    (w : World (ε × Nat)) :
    newLogUnaryInterceptor none index name ctx req info (tallied h) w = (w, Result.panicked)
    ∧ (newLogUnaryInterceptor none index name ctx req info (tallied h) w).1.ext.2 = w.ext.2
    ∧ (newLogUnaryInterceptor none 0 "A" () (⟨"x"⟩ : HelloRequest) ()
          (tallied (failingHandler ⟨13, "boom"⟩)) ⟨[], [], 0, ((), 0)⟩)
        = (⟨[], [], 0, ((), 0)⟩, Result.panicked) := by
  refine ⟨rfl, rfl, rfl⟩

/-! ## The server configuration -/

/-- C9, as stated, fails: the interceptors installed for streamed calls are
one, the metrics interceptor, against three for unary calls; a streamed call
writes none of the lines of the logging interceptors, where a unary call, with
a logger that writes every entry, writes all four. -/
theorem stream_chain_differs :
    (streamInterceptors (forwardStream : StreamServerInterceptor Unit Unit Unit Unit)).length = 1
    ∧ (chainUnaryInterceptors Logger.always
        (forwardUnary : UnaryServerInterceptor Unit HelloRequest Unit HelloResponse Unit)).length = 3
    ∧ (serverStreamInterceptor forwardStream () () () idleStreamHandler init).1.log = []
    ∧ (serverStreamInterceptor forwardStream () () () idleStreamHandler init).1.infoCalls = 0
    ∧ (serverUnaryInterceptor Logger.always forwardUnary () ⟨"x"⟩ () SayHello init).1.log
        = [⟨"executing interceptor logic",
            "first interceptor capturing the server e2e latency in logs", 0⟩,
           ⟨"executing interceptor logic",
            "second interceptor capturing the server e2e latency in prometheus metrics", 1⟩,
           ⟨"finished interceptor logic",
            "second interceptor capturing the server e2e latency in prometheus metrics", 1⟩,
           ⟨"finished interceptor logic",
            "first interceptor capturing the server e2e latency in logs", 0⟩]
    ∧ (serverUnaryInterceptor Logger.silent forwardUnary () ⟨"x"⟩ () SayHello init).1.infoCalls
        = 4 := by
  refine ⟨rfl, rfl, by decide, by decide, by decide, by decide⟩

/-- C9, amended: the unary chain is the logging interceptor with index 0, the
logging interceptor with index 1, then the metrics interceptor, so on every
unary call both entry Info calls are made before the metrics interceptor runs
and both exit Info calls after it returned, the inner one first; streamed
calls go through the metrics stream interceptor alone. -/
theorem server_interceptor_order {Ctx Req Info Resp Srv SS SInfo ε : Type} (lg : Logger)
    (metricsUnary : UnaryServerInterceptor Ctx Req Info Resp ε)
    (metricsStream : StreamServerInterceptor Srv SS SInfo ε)
    (ctx : Ctx) (req : Req) (info : Info) (h : UnaryHandler Ctx Req Resp ε)
    (srv : Srv) (ss : SS) (sinfo : SInfo) (sh : StreamHandler Srv SS ε) (w : World ε) :
    chainUnaryInterceptors lg metricsUnary
        = [newLogUnaryInterceptor (some lg) 0
             "first interceptor capturing the server e2e latency in logs",
           newLogUnaryInterceptor (some lg) 1
             "second interceptor capturing the server e2e latency in prometheus metrics",
           metricsUnary]
    ∧ serverUnaryInterceptor lg metricsUnary ctx req info h w
        = thenOffer
            [(lg, ⟨"finished interceptor logic",
              "second interceptor capturing the server e2e latency in prometheus metrics", 1⟩),
             (lg, ⟨"finished interceptor logic",
              "first interceptor capturing the server e2e latency in logs", 0⟩)]
            (metricsUnary ctx req info h
              (w.offerAll
                [(lg, ⟨"executing interceptor logic",
                  "first interceptor capturing the server e2e latency in logs", 0⟩),
                 (lg, ⟨"executing interceptor logic",
                  "second interceptor capturing the server e2e latency in prometheus metrics",
                  1⟩)]))
    ∧ streamInterceptors metricsStream = [metricsStream]
    ∧ serverStreamInterceptor metricsStream srv ss sinfo sh w
        = metricsStream srv ss sinfo sh w := by
  refine ⟨rfl, ?_, rfl, rfl⟩
  have hrun := chain_log_front_run
    [⟨lg, 0, "first interceptor capturing the server e2e latency in logs"⟩,
     ⟨lg, 1, "second interceptor capturing the server e2e latency in prometheus metrics"⟩]
    [metricsUnary] ctx req info h w
  exact hrun

end GrpcDemo
